import Mathlib

/-!
# Finance-Picker: the expense aggregation and filter logic of `App.js`

A shallow embedding of the helper functions and of the Home / Add-Expense logic of
`src/App.js`, together with the properties the specification states about them.

Conventions of the embedding:

* a `Date` object is its time value, an `Int` number of milliseconds since the epoch;
  the `Date` methods follow the abstract operations of the ECMAScript specification
  (`Day`, `YearFromTime`, `MakeDay`, ...); the dates of the records are valid ones, as
  `saveExpense` writes them;
* local time is UTC shifted by a fixed offset `tz` (milliseconds); daylight-saving
  transitions are outside the model;
* the ambient clock (`new Date()`, `Date.now()`) is an explicit argument;
* JavaScript strings are lists of characters;
* the amounts that the Home screen reads are exact rationals.
-/

namespace FinancePicker

/-! ## ECMAScript time values -/

def msPerDay : Int := 86400000

def msPerHour : Int := 3600000

def msPerMinute : Int := 60000

def msPerSecond : Int := 1000

/-- Day number of a time value: `floor(t / msPerDay)`. -/
def Day (t : Int) : Int := t / msPerDay

/-- Milliseconds elapsed since the start of the day: `t modulo msPerDay`. -/
def TimeWithinDay (t : Int) : Int := t % msPerDay

def DaysInYear (y : Int) : Int :=
  if y % 4 ≠ 0 then 365
  else if y % 100 ≠ 0 then 366
  else if y % 400 ≠ 0 then 365
  else 366

/-- Day number of the first day of year `y`. -/
def DayFromYear (y : Int) : Int :=
  365 * (y - 1970) + (y - 1969) / 4 - (y - 1901) / 100 + (y - 1601) / 400

def TimeFromYear (y : Int) : Int := msPerDay * DayFromYear y

/-- The largest `y` with `TimeFromYear y ≤ t`: an estimate from the mean length of a
Gregorian year (146097 days in 400 years), corrected by at most one year. -/
def YearFromTime (t : Int) : Int :=
  let d := Day t
  let y := 1970 + (400 * d) / 146097
  if d < DayFromYear y then y - 1
  else if DayFromYear (y + 1) ≤ d then y + 1
  else y

def InLeapYear (t : Int) : Int :=
  if DaysInYear (YearFromTime t) = 366 then 1 else 0

def DayWithinYear (t : Int) : Int := Day t - DayFromYear (YearFromTime t)

/-- The table of `MonthFromTime`: the month holding day `d` of a year, `l` being 1 in
a leap year and 0 otherwise. -/
def monthOfYearDay (d l : Int) : Int :=
  if d < 31 then 0
  else if d < 59 + l then 1
  else if d < 90 + l then 2
  else if d < 120 + l then 3
  else if d < 151 + l then 4
  else if d < 181 + l then 5
  else if d < 212 + l then 6
  else if d < 243 + l then 7
  else if d < 273 + l then 8
  else if d < 304 + l then 9
  else if d < 334 + l then 10
  else 11

/-- The table of `DateFromTime`: the day of the month of day `d` of a year, in month `m`. -/
def dateOfYearDay (d l m : Int) : Int :=
  if m = 0 then d + 1
  else if m = 1 then d - 30
  else if m = 2 then d - 58 - l
  else if m = 3 then d - 89 - l
  else if m = 4 then d - 119 - l
  else if m = 5 then d - 150 - l
  else if m = 6 then d - 180 - l
  else if m = 7 then d - 211 - l
  else if m = 8 then d - 242 - l
  else if m = 9 then d - 272 - l
  else if m = 10 then d - 303 - l
  else d - 333 - l

/-- Month number, 0 (January) to 11 (December). -/
def MonthFromTime (t : Int) : Int := monthOfYearDay (DayWithinYear t) (InLeapYear t)

/-- Day of the month, 1 to 31. -/
def DateFromTime (t : Int) : Int :=
  dateOfYearDay (DayWithinYear t) (InLeapYear t) (MonthFromTime t)

/-- Day of the week, 0 (Sunday) to 6 (Saturday). -/
def WeekDay (t : Int) : Int := (Day t + 4) % 7

def LocalTime (tz t : Int) : Int := t + tz

def UTC (tz t : Int) : Int := t - tz

def MakeTime (hour min sec ms : Int) : Int :=
  hour * msPerHour + min * msPerMinute + sec * msPerSecond + ms

/-- Number of days that precede month `m` (0 to 11) in a year, `l` being 1 in a leap
year and 0 otherwise. -/
def daysBeforeMonth (l m : Int) : Int :=
  if m = 0 then 0
  else if m = 1 then 31
  else if m = 2 then 59 + l
  else if m = 3 then 90 + l
  else if m = 4 then 120 + l
  else if m = 5 then 151 + l
  else if m = 6 then 181 + l
  else if m = 7 then 212 + l
  else if m = 8 then 243 + l
  else if m = 9 then 273 + l
  else if m = 10 then 304 + l
  else 334 + l

/-- The operation `MakeDay`: the day number of the first day of month `month` of `year`
(months outside 0..11 carry into the year), plus `date - 1`; a `date` outside the month
rolls into the neighbouring months. -/
def MakeDay (year month date : Int) : Int :=
  let ym := year + month / 12
  let mn := month % 12
  DayFromYear ym + daysBeforeMonth (if DaysInYear ym = 366 then 1 else 0) mn + date - 1

def MakeDate (day time : Int) : Int := day * msPerDay + time

/-! ## `Date` methods, in local time -/

def getDate (tz t : Int) : Int := DateFromTime (LocalTime tz t)

def getDay (tz t : Int) : Int := WeekDay (LocalTime tz t)

def getMonth (tz t : Int) : Int := MonthFromTime (LocalTime tz t)

def getFullYear (tz t : Int) : Int := YearFromTime (LocalTime tz t)

/-- The method `Date.prototype.setDate`: the new time value. -/
def setDate (tz t dt : Int) : Int :=
  let lt := LocalTime tz t
  UTC tz (MakeDate (MakeDay (YearFromTime lt) (MonthFromTime lt) dt) (TimeWithinDay lt))

/-- The method `Date.prototype.setHours`, called with all four arguments: the new time
value. -/
def setHours (tz t hour min sec ms : Int) : Int :=
  let lt := LocalTime tz t
  UTC tz (MakeDate (Day lt) (MakeTime hour min sec ms))

/-! ## Helper functions of `App.js` -/

/-- The helper `isToday(dateStr)`, its clock reading `now` made explicit. -/
def isToday (tz now d : Int) : Bool :=
  getDate tz d == getDate tz now &&
  getMonth tz d == getMonth tz now &&
  getFullYear tz d == getFullYear tz now

/-- The helper `isThisWeek(dateStr)` with its two clock readings: `now` (`const now = new Date()`)
and `fresh` (`const firstDayOfWeek = new Date()`). -/
def isThisWeekAt (tz now fresh d : Int) : Bool :=
  let firstDayOfWeek := setDate tz fresh (getDate tz now - getDay tz now)
  let firstDayOfWeek := setHours tz firstDayOfWeek 0 0 0 0
  let lastDayOfWeek := firstDayOfWeek
  let lastDayOfWeek := setDate tz lastDayOfWeek (getDate tz firstDayOfWeek + 6)
  let lastDayOfWeek := setHours tz lastDayOfWeek 23 59 59 999
  decide (d ≥ firstDayOfWeek) && decide (d ≤ lastDayOfWeek)

/-- The helper `isThisWeek(dateStr)` at the instant `now`: both clock readings give
`now`. -/
def isThisWeek (tz now d : Int) : Bool := isThisWeekAt tz now now d

/-- The helper `isThisMonth(dateStr)`, its clock reading `now` made explicit. -/
def isThisMonth (tz now d : Int) : Bool :=
  getMonth tz d == getMonth tz now && getFullYear tz d == getFullYear tz now

/-! ## Strings -/

/-- JavaScript string values, as lists of characters. -/
abbrev JSString := List Char

/-- The code points that `String.prototype.trim` strips: ECMAScript `WhiteSpace`
(tab, vertical tab, form feed, U+FEFF and the Unicode space separators) and
`LineTerminator`. -/
def isWhiteSpace (c : Char) : Bool :=
  let n := c.toNat
  n = 0x09 || n = 0x0A || n = 0x0B || n = 0x0C || n = 0x0D || n = 0x20 || n = 0xA0 ||
  n = 0x1680 || (0x2000 ≤ n && n ≤ 0x200A) || n = 0x2028 || n = 0x2029 || n = 0x202F ||
  n = 0x205F || n = 0x3000 || n = 0xFEFF

def trimStart (s : JSString) : JSString := s.dropWhile isWhiteSpace

def trimEnd (s : JSString) : JSString := (s.reverse.dropWhile isWhiteSpace).reverse

/-- The method `String.prototype.trim`. -/
def trim (s : JSString) : JSString := trimEnd (trimStart s)

/-- The method `String.prototype.toLowerCase`; the case mapping is carried out on the ASCII
letters, every other character is left as it is. -/
def toLowerCase (s : JSString) : JSString := s.map Char.toLower

/-- The test `s.includes(t)`: `t` occurs in `s` as a contiguous substring. -/
def includes : JSString → JSString → Bool
  | [], t => t.isEmpty
  | c :: s, t => t.isPrefixOf (c :: s) || includes s t

/-- Decimal digits of a natural number (`Number::toString` on a non-negative integer). -/
def decimalString (n : Nat) : JSString := Nat.toDigits 10 n

/-- The operation `ToZeroPaddedDecimalString(n, minLength)`. -/
def toZeroPaddedDecimalString (n minLength : Nat) : JSString :=
  List.replicate (minLength - (decimalString n).length) '0' ++ decimalString n

/-- Decimal string of an integer, as `Number.prototype.toString` gives it. -/
def intToString (n : Int) : JSString :=
  if n < 0 then '-' :: decimalString n.natAbs else decimalString n.natAbs

def weekdayName (w : Int) : JSString :=
  if w = 0 then "Sun".toList
  else if w = 1 then "Mon".toList
  else if w = 2 then "Tue".toList
  else if w = 3 then "Wed".toList
  else if w = 4 then "Thu".toList
  else if w = 5 then "Fri".toList
  else "Sat".toList

def monthName (m : Int) : JSString :=
  if m = 0 then "Jan".toList
  else if m = 1 then "Feb".toList
  else if m = 2 then "Mar".toList
  else if m = 3 then "Apr".toList
  else if m = 4 then "May".toList
  else if m = 5 then "Jun".toList
  else if m = 6 then "Jul".toList
  else if m = 7 then "Aug".toList
  else if m = 8 then "Sep".toList
  else if m = 9 then "Oct".toList
  else if m = 10 then "Nov".toList
  else "Dec".toList

/-- The method `Date.prototype.toDateString` (ECMAScript `DateString`) of the local time: weekday
name, month name, two-digit day and the year padded to four digits, a negative year
with a leading minus sign; for example `Thu Feb 01 2024`. -/
def toDateString (tz t : Int) : JSString :=
  let lt := LocalTime tz t
  let yv := YearFromTime lt
  weekdayName (WeekDay lt) ++ ' ' :: monthName (MonthFromTime lt) ++ ' ' ::
    toZeroPaddedDecimalString (DateFromTime lt).toNat 2 ++ ' ' ::
    ((if yv ≥ 0 then [] else ['-']) ++ toZeroPaddedDecimalString yv.natAbs 4)

/-! ## Expense records -/

/-- An expense record `{ id, amount, category, note, date }`. The record is parametric
in the type of its amount: the Add-Expense screen stores a JavaScript number, the
Home screen computes with exact rationals. The `date`, an ISO-8601 string in the
source, is the time value it denotes. -/
structure Expense (N : Type) where
  id : JSString
  amount : N
  category : JSString
  note : JSString
  date : Int
deriving DecidableEq

/-! ## Home screen -/

/-- The method `Array.prototype.sort(compareFn)`. ECMAScript requires the sort to be stable, so
for a consistent comparator the result is determined: the elements ordered by the
comparator, `a` before `b` when `compareFn(a, b) < 0`, elements that compare equal in
their original order. It is computed here by insertion, from the last element on. -/
def sort {α : Type} (compareFn : α → α → ℚ) (l : List α) : List α :=
  l.insertionSort (fun a b => compareFn a b ≤ 0)

/-- The three sums shown on the Home screen. -/
structure Totals where
  today : ℚ
  week : ℚ
  month : ℚ
deriving DecidableEq

/-- The body of the `forEach` of `loadExpenses`: one record added to the running sums. -/
def addToTotals (tz now : Int) (acc : Totals) (exp : Expense ℚ) : Totals :=
  let today := if isToday tz now exp.date then acc.today + exp.amount else acc.today
  let week := if isThisWeek tz now exp.date then acc.week + exp.amount else acc.week
  let month := if isThisMonth tz now exp.date then acc.month + exp.amount else acc.month
  { today := today, week := week, month := month }

/-- The totals that `loadExpenses` computes from the stored `expenses` document
(`existing`, read as the empty list when absent) at the instant `now`. -/
def loadExpenses (tz now : Int) (existing : Option (List (Expense ℚ))) : Totals :=
  let data := existing.getD []
  data.foldl (addToTotals tz now) { today := 0, week := 0, month := 0 }

/-- The statement `grouped[d].push(exp)`, the property `d` being created with an empty array when it
is absent. The object is the list of its entries in property order; the keys are date
strings, never array indices, so that order is the order of creation. -/
def pushTo (grouped : List (JSString × List (Expense ℚ))) (d : JSString) (exp : Expense ℚ) :
    List (JSString × List (Expense ℚ)) :=
  match grouped with
  | [] => [(d, [exp])]
  | (k, v) :: rest => if k = d then (k, v ++ [exp]) :: rest else (k, v) :: pushTo rest d exp

/-- The function `groupByDate(data)`: the entries (`Object.entries`) of the object it returns. -/
def groupByDate (tz : Int) (data : List (Expense ℚ)) : List (JSString × List (Expense ℚ)) :=
  data.foldl (fun grouped exp => pushTo grouped (toDateString tz exp.date) exp) []

/-- The category step: `if (filterCategory) filtered = filtered.filter(...)`. -/
def filterByCategory (filterCategory : JSString) (filtered : List (Expense ℚ)) :
    List (Expense ℚ) :=
  if filterCategory ≠ [] then filtered.filter (fun e => e.category = filterCategory)
  else filtered

/-- The text-search step: `if (search.trim()) filtered = filtered.filter(...)`. -/
def filterBySearch (search : JSString) (filtered : List (Expense ℚ)) : List (Expense ℚ) :=
  if trim search ≠ [] then
    filtered.filter (fun e => includes (toLowerCase e.note) (toLowerCase search))
  else filtered

/-- The sort step: by date, latest first, or by amount, highest first. -/
def sortExpenses (sortMode : JSString) (filtered : List (Expense ℚ)) : List (Expense ℚ) :=
  if sortMode = "latest".toList then
    sort (fun a b => ((b.date - a.date : Int) : ℚ)) filtered
  else if sortMode = "highest".toList then
    sort (fun a b => b.amount - a.amount) filtered
  else filtered

/-- The list `filtered` of the Home screen after the filter and sort steps. -/
def filteredExpenses (expenses : List (Expense ℚ)) (filterCategory search sortMode : JSString) :
    List (Expense ℚ) :=
  sortExpenses sortMode (filterBySearch search (filterByCategory filterCategory expenses))

/-- The value `groupedExpenses = groupByDate(filtered)`. -/
def groupedExpenses (tz : Int) (expenses : List (Expense ℚ))
    (filterCategory search sortMode : JSString) : List (JSString × List (Expense ℚ)) :=
  groupByDate tz (filteredExpenses expenses filterCategory search sortMode)

/-- The records of the sections of the Home list, section after section, as the
`FlatList` over `Object.entries(groupedExpenses)` shows them. -/
def flatten (grouped : List (JSString × List (Expense ℚ))) : List (Expense ℚ) :=
  (grouped.map Prod.snd).flatten

/-! ## Add-Expense screen -/

/-- The values `parseFloat` returns. A finite value is the exact value of the decimal
literal read; rounding to binary64 is outside the model. -/
inductive JSNumber where
  | nan
  | posInf
  | negInf
  | fin (q : ℚ)
deriving DecidableEq

namespace JSNumber

/-- Unary minus. -/
def neg : JSNumber → JSNumber
  | nan => nan
  | posInf => negInf
  | negInf => posInf
  | fin q => fin (-q)

/-- The test `Number.isNaN(x)`. -/
def isNaN : JSNumber → Bool
  | nan => true
  | _ => false

/-- The comparison `x <= 0`. -/
def leZero : JSNumber → Bool
  | nan => false
  | posInf => false
  | negInf => true
  | fin q => decide (q ≤ 0)

end JSNumber

/-- The number that a sequence of decimal digits denotes. -/
def digitsValue (ds : JSString) : Nat :=
  ds.foldl (fun acc c => 10 * acc + (c.toNat - '0'.toNat)) 0

/-- The value of the `ExponentPart` (`e` or `E`, an optional sign, digits) that `s`
starts with, and 0 when `s` does not start with a complete one. -/
def exponentValue (s : JSString) : Int :=
  match s with
  | [] => 0
  | c :: rest =>
    if c = 'e' ∨ c = 'E' then
      match rest with
      | [] => 0
      | sign :: r =>
        if sign = '+' then (digitsValue (r.takeWhile Char.isDigit) : Int)
        else if sign = '-' then -(digitsValue (r.takeWhile Char.isDigit) : Int)
        else (digitsValue (rest.takeWhile Char.isDigit) : Int)
    else 0

/-- The value of the longest prefix of `s` that is a `StrUnsignedDecimalLiteral`
(`Infinity`, or digits with an optional fraction and exponent, or a fraction that
starts with the point), and `NaN` when no prefix is one. -/
def parseUnsigned (s : JSString) : JSNumber :=
  if "Infinity".toList.isPrefixOf s then JSNumber.posInf
  else
    let intDigits := s.takeWhile Char.isDigit
    let rest := s.dropWhile Char.isDigit
    match rest with
    | [] => if intDigits = [] then JSNumber.nan else JSNumber.fin (digitsValue intDigits)
    | c :: afterPoint =>
      if c = '.' then
        let fracDigits := afterPoint.takeWhile Char.isDigit
        if intDigits = [] ∧ fracDigits = [] then JSNumber.nan
        else
          JSNumber.fin (((digitsValue intDigits : ℚ)
              + (digitsValue fracDigits : ℚ) / (10 : ℚ) ^ fracDigits.length)
            * (10 : ℚ) ^ exponentValue (afterPoint.dropWhile Char.isDigit))
      else if intDigits = [] then JSNumber.nan
      else JSNumber.fin ((digitsValue intDigits : ℚ) * (10 : ℚ) ^ exponentValue rest)

/-- The function `parseFloat(string)`: leading white space is skipped, then the longest prefix that
is a signed decimal literal is read. -/
def parseFloat (string : JSString) : JSNumber :=
  match trimStart string with
  | [] => JSNumber.nan
  | c :: r =>
    if c = '-' then (parseUnsigned r).neg
    else if c = '+' then parseUnsigned r
    else parseUnsigned (c :: r)

/-- What a call of `saveExpense` leaves behind: the text of the alert it shows and the
`expenses` document of the store afterwards (`none`: no document). -/
structure SaveOutcome where
  alert : JSString
  expenses : Option (List (Expense JSNumber))
deriving DecidableEq

/-- The function `saveExpense()`, on the screen state `amount`, `category`, `note` and the stored
`expenses` document `existing`. `idClock` and `dateClock` are the clock readings
`Date.now()` and `new Date()`; `storageOk` tells whether the read and the write of the
store succeed (otherwise the `catch` branch runs). A non-finite amount would be written
as `null` by `JSON.stringify`; the record keeps the number. -/
def saveExpense (idClock dateClock : Int) (storageOk : Bool)
    (existing : Option (List (Expense JSNumber))) (amount category note : JSString) :
    SaveOutcome :=
  if amount = [] ∨ category = [] then
    { alert := "Please enter amount and category".toList, expenses := existing }
  else
    let parsed := parseFloat amount
    if parsed.isNaN || parsed.leZero then
      { alert := "Enter a valid amount".toList, expenses := existing }
    else
      let newExpense : Expense JSNumber :=
        { id := intToString idClock, amount := parsed, category := category,
          note := trim note, date := dateClock }
      if storageOk then
        let expenses := existing.getD []
        { alert := "Expense saved ✅".toList, expenses := some (expenses ++ [newExpense]) }
      else
        { alert := "Could not save expense".toList, expenses := existing }

/-! ## Sample data -/

/-- A record as `saveExpense` stores it: the note has no surrounding white space. -/
def lunch : Expense ℚ :=
  { id := "1706788800000".toList, amount := 12, category := "Food".toList,
    note := "lunch".toList, date := 1706788800000 }

/-- The distinct elements of a list, in the order in which they first appear. -/
def firstAppearances {α : Type} [DecidableEq α] : List α → List α
  | [] => []
  | a :: l => a :: (firstAppearances l).filter (fun b => decide (b ≠ a))

/-- Thursday 1 February 2024, 12:00 UTC. -/
def dinner : Expense ℚ :=
  { id := "1706788800000".toList, amount := 30, category := "Food".toList,
    note := "dinner".toList, date := 1706788800000 }

/-- Friday 2 February 2024, 12:00 UTC. -/
def taxi : Expense ℚ :=
  { id := "1706875200000".toList, amount := 20, category := "Transport".toList,
    note := [], date := 1706875200000 }

/-- Thursday 1 February 2024, 13:00 UTC. -/
def coffee : Expense ℚ :=
  { id := "1706792400000".toList, amount := 10, category := "Food".toList,
    note := "coffee".toList, date := 1706792400000 }

/-! ## Facts about the calendar operations -/

/-- The first day of year `y` lies within two days of `y - 1970` mean Gregorian years. -/
theorem DayFromYear_approx (y : Int) :
    -398 ≤ 400 * DayFromYear y - 146097 * (y - 1970) ∧
      400 * DayFromYear y - 146097 * (y - 1970) ≤ 481 := by
  simp only [DayFromYear]
  omega

/-- The year of a time value contains its day: `YearFromTime` is the operation the
ECMAScript specification describes. -/
theorem YearFromTime_spec (t : Int) :
    DayFromYear (YearFromTime t) ≤ Day t ∧ Day t < DayFromYear (YearFromTime t + 1) := by
  simp only [YearFromTime]
  generalize Day t = d
  generalize hy : 1970 + 400 * d / 146097 = y
  have h0 := DayFromYear_approx (y - 1)
  have h2 := DayFromYear_approx (y + 1 + 1)
  split_ifs with h h1 <;> (try simp only [sub_add_cancel]) <;> constructor <;> omega

theorem DayFromYear_succ (y : Int) : DayFromYear (y + 1) = DayFromYear y + DaysInYear y := by
  simp only [DayFromYear, DaysInYear]
  split_ifs <;> omega

theorem DayFromYear_mono (a b : Int) (h : a ≤ b) : DayFromYear a ≤ DayFromYear b := by
  simp only [DayFromYear]
  omega

/-- No later year starts on or before the day of a time value: `YearFromTime t` is the
largest `y` with `TimeFromYear y ≤ t`. -/
theorem YearFromTime_largest (t y : Int) (h : TimeFromYear y ≤ t) : y ≤ YearFromTime t := by
  by_contra hlt
  have h1 := DayFromYear_mono (YearFromTime t + 1) y (by omega)
  have h2 := (YearFromTime_spec t).2
  have h3 : DayFromYear y ≤ Day t := by
    simp only [TimeFromYear, Day, msPerDay] at *
    omega
  omega

theorem DaysInYear_cases (y : Int) : DaysInYear y = 365 ∨ DaysInYear y = 366 := by
  simp only [DaysInYear]
  split_ifs <;> simp

/-- The two calendar tables agree: the month is in range and the date counts the days
since the start of that month. -/
theorem monthOfYearDay_spec (d l : Int) :
    0 ≤ monthOfYearDay d l ∧ monthOfYearDay d l ≤ 11 ∧
      dateOfYearDay d l (monthOfYearDay d l)
        = d - daysBeforeMonth l (monthOfYearDay d l) + 1 := by
  unfold monthOfYearDay
  by_cases h0 : d < 31
  · rw [if_pos h0]; simp [dateOfYearDay, daysBeforeMonth]
  rw [if_neg h0]
  by_cases h1 : d < 59 + l
  · rw [if_pos h1]; simp [dateOfYearDay, daysBeforeMonth]; omega
  rw [if_neg h1]
  by_cases h2 : d < 90 + l
  · rw [if_pos h2]; simp [dateOfYearDay, daysBeforeMonth]; omega
  rw [if_neg h2]
  by_cases h3 : d < 120 + l
  · rw [if_pos h3]; simp [dateOfYearDay, daysBeforeMonth]; omega
  rw [if_neg h3]
  by_cases h4 : d < 151 + l
  · rw [if_pos h4]; simp [dateOfYearDay, daysBeforeMonth]; omega
  rw [if_neg h4]
  by_cases h5 : d < 181 + l
  · rw [if_pos h5]; simp [dateOfYearDay, daysBeforeMonth]; omega
  rw [if_neg h5]
  by_cases h6 : d < 212 + l
  · rw [if_pos h6]; simp [dateOfYearDay, daysBeforeMonth]; omega
  rw [if_neg h6]
  by_cases h7 : d < 243 + l
  · rw [if_pos h7]; simp [dateOfYearDay, daysBeforeMonth]; omega
  rw [if_neg h7]
  by_cases h8 : d < 273 + l
  · rw [if_pos h8]; simp [dateOfYearDay, daysBeforeMonth]; omega
  rw [if_neg h8]
  by_cases h9 : d < 304 + l
  · rw [if_pos h9]; simp [dateOfYearDay, daysBeforeMonth]; omega
  rw [if_neg h9]
  by_cases h10 : d < 334 + l
  · rw [if_pos h10]; simp [dateOfYearDay, daysBeforeMonth]; omega
  rw [if_neg h10]
  simp [dateOfYearDay, daysBeforeMonth]; omega

theorem dateOfYearDay_range (d l : Int) (hd : 0 ≤ d) (hl0 : 0 ≤ l) (hl1 : l ≤ 1)
    (hdl : d < 365 + l) :
    1 ≤ dateOfYearDay d l (monthOfYearDay d l) ∧
      dateOfYearDay d l (monthOfYearDay d l) ≤ 31 := by
  unfold monthOfYearDay
  by_cases h0 : d < 31
  · rw [if_pos h0]; simp [dateOfYearDay]; omega
  rw [if_neg h0]
  by_cases h1 : d < 59 + l
  · rw [if_pos h1]; simp [dateOfYearDay]; omega
  rw [if_neg h1]
  by_cases h2 : d < 90 + l
  · rw [if_pos h2]; simp [dateOfYearDay]; omega
  rw [if_neg h2]
  by_cases h3 : d < 120 + l
  · rw [if_pos h3]; simp [dateOfYearDay]; omega
  rw [if_neg h3]
  by_cases h4 : d < 151 + l
  · rw [if_pos h4]; simp [dateOfYearDay]; omega
  rw [if_neg h4]
  by_cases h5 : d < 181 + l
  · rw [if_pos h5]; simp [dateOfYearDay]; omega
  rw [if_neg h5]
  by_cases h6 : d < 212 + l
  · rw [if_pos h6]; simp [dateOfYearDay]; omega
  rw [if_neg h6]
  by_cases h7 : d < 243 + l
  · rw [if_pos h7]; simp [dateOfYearDay]; omega
  rw [if_neg h7]
  by_cases h8 : d < 273 + l
  · rw [if_pos h8]; simp [dateOfYearDay]; omega
  rw [if_neg h8]
  by_cases h9 : d < 304 + l
  · rw [if_pos h9]; simp [dateOfYearDay]; omega
  rw [if_neg h9]
  by_cases h10 : d < 334 + l
  · rw [if_pos h10]; simp [dateOfYearDay]; omega
  rw [if_neg h10]
  simp [dateOfYearDay]; omega

theorem MonthFromTime_range (t : Int) : 0 ≤ MonthFromTime t ∧ MonthFromTime t ≤ 11 :=
  ⟨(monthOfYearDay_spec _ _).1, (monthOfYearDay_spec _ _).2.1⟩

theorem DateFromTime_range (t : Int) : 1 ≤ DateFromTime t ∧ DateFromTime t ≤ 31 := by
  have hs := YearFromTime_spec t
  rw [DayFromYear_succ] at hs
  have hy := DaysInYear_cases (YearFromTime t)
  apply dateOfYearDay_range
  · simp only [DayWithinYear]; omega
  · simp only [InLeapYear]; split_ifs <;> omega
  · simp only [InLeapYear]; split_ifs <;> omega
  · simp only [DayWithinYear, InLeapYear]
    split_ifs with h
    · omega
    · omega

/-- The day number of a time value is determined by its year, month and date. -/
theorem Day_eq_fields (t : Int) :
    Day t = DayFromYear (YearFromTime t)
      + daysBeforeMonth (if DaysInYear (YearFromTime t) = 366 then 1 else 0) (MonthFromTime t)
      + DateFromTime t - 1 := by
  have h := (monthOfYearDay_spec (DayWithinYear t) (InLeapYear t)).2.2
  simp only [DateFromTime, MonthFromTime, DayWithinYear, InLeapYear] at h ⊢
  omega

theorem MakeDay_fields (t k : Int) :
    MakeDay (YearFromTime t) (MonthFromTime t) (DateFromTime t + k) = Day t + k := by
  have hr := MonthFromTime_range t
  have h1 : MonthFromTime t / 12 = 0 := by omega
  have h2 : MonthFromTime t % 12 = MonthFromTime t := by omega
  simp only [MakeDay, h1, h2, add_zero]
  have := Day_eq_fields t
  omega

theorem Day_mul_add (d r : Int) (h0 : 0 ≤ r) (h1 : r < msPerDay) :
    Day (d * msPerDay + r) = d ∧ TimeWithinDay (d * msPerDay + r) = r := by
  simp only [Day, TimeWithinDay, msPerDay] at *
  omega

theorem Day_decomp (t : Int) : t = Day t * msPerDay + TimeWithinDay t ∧
    0 ≤ TimeWithinDay t ∧ TimeWithinDay t < msPerDay := by
  simp only [Day, TimeWithinDay, msPerDay]
  omega

theorem Day_mono (a b : Int) (h : a ≤ b) : Day a ≤ Day b := by
  simp only [Day, msPerDay]; omega

theorem WeekDay_range (t : Int) : 0 ≤ WeekDay t ∧ WeekDay t ≤ 6 := by
  simp only [WeekDay]; omega

theorem setDate_getDate_add (tz t k : Int) :
    setDate tz t (getDate tz t + k) = t + k * msPerDay := by
  simp only [setDate, getDate, LocalTime, UTC, MakeDate, MakeDay_fields]
  have h := (Day_decomp (t + tz)).1
  linarith

theorem setHours_eq (tz t h m s ms : Int) :
    setHours tz t h m s ms = Day (t + tz) * msPerDay + MakeTime h m s ms - tz := by
  simp only [setHours, LocalTime, UTC, MakeDate]

/-- The first day of the week computed by `isThisWeek`: local midnight of the day
`getDay` days before the day of `now`. -/
theorem firstDayOfWeek_eq (tz now : Int) :
    setHours tz (setDate tz now (getDate tz now - getDay tz now)) 0 0 0 0
      = (Day (now + tz) - WeekDay (now + tz)) * msPerDay - tz := by
  rw [sub_eq_add_neg, setDate_getDate_add, setHours_eq]
  have h := Day_decomp (now + tz)
  have e : now + -getDay tz now * msPerDay + tz
      = (Day (now + tz) - WeekDay (now + tz)) * msPerDay + TimeWithinDay (now + tz) := by
    simp only [getDay, LocalTime]; linarith
  rw [e, (Day_mul_add _ _ h.2.1 h.2.2).1]
  simp [MakeTime]

/-- The last instant of the week computed by `isThisWeek`. -/
theorem lastDayOfWeek_eq (tz first : Int) (h : TimeWithinDay (first + tz) = 0) :
    setHours tz (setDate tz first (getDate tz first + 6)) 23 59 59 999
      = first + 6 * msPerDay + MakeTime 23 59 59 999 := by
  rw [setDate_getDate_add, setHours_eq]
  have hd := (Day_decomp (first + tz)).1
  have e : first + 6 * msPerDay + tz = (Day (first + tz) + 6) * msPerDay + 0 := by
    rw [h] at hd; linarith
  rw [e, (Day_mul_add _ 0 (le_refl 0) (by decide)).1]
  rw [h] at hd
  linarith

/-- The test of `isThisWeek` in closed form. -/
theorem isThisWeek_eq (tz now ts : Int) :
    isThisWeek tz now ts = true ↔
      (Day (now + tz) - WeekDay (now + tz)) * msPerDay - tz ≤ ts ∧
      ts ≤ (Day (now + tz) - WeekDay (now + tz)) * msPerDay - tz
            + 6 * msPerDay + MakeTime 23 59 59 999 := by
  have hf := firstDayOfWeek_eq tz now
  have hm : TimeWithinDay ((Day (now + tz) - WeekDay (now + tz)) * msPerDay - tz + tz) = 0 := by
    have := (Day_mul_add (Day (now + tz) - WeekDay (now + tz)) 0 (le_refl 0) (by decide)).2
    simpa using this
  have hl := lastDayOfWeek_eq tz _ hm
  simp only [isThisWeek, isThisWeekAt, hf, hl]
  simp

/-- The first day of the week that `isThisWeek` computes is a local midnight, on a
day of weekday 0, in the seven days up to `now`. -/
theorem weekStart_exists (tz now : Int) :
    TimeWithinDay (LocalTime tz ((Day (now + tz) - WeekDay (now + tz)) * msPerDay - tz)) = 0 ∧
    WeekDay (LocalTime tz ((Day (now + tz) - WeekDay (now + tz)) * msPerDay - tz)) = 0 ∧
    (Day (now + tz) - WeekDay (now + tz)) * msPerDay - tz ≤ now ∧
    now < (Day (now + tz) - WeekDay (now + tz)) * msPerDay - tz + 7 * msPerDay := by
  simp only [TimeWithinDay, WeekDay, Day, LocalTime, msPerDay]
  omega

/-- A local midnight that starts a day of weekday 0 and lies in the seven days up to
`now` is the first day of the week that `isThisWeek` computes. -/
theorem weekStart_unique (tz now weekStart : Int)
    (hmid : TimeWithinDay (LocalTime tz weekStart) = 0)
    (hsun : WeekDay (LocalTime tz weekStart) = 0)
    (hle : weekStart ≤ now) (hlatest : now < weekStart + 7 * msPerDay) :
    weekStart = (Day (now + tz) - WeekDay (now + tz)) * msPerDay - tz := by
  simp only [TimeWithinDay, WeekDay, Day, LocalTime, msPerDay] at *
  omega

/-- A time value of the same local calendar day as `now` has the same day number. -/
theorem Day_eq_of_isToday (tz now ts : Int) (h : isToday tz now ts = true) :
    Day (ts + tz) = Day (now + tz) := by
  simp only [isToday, getDate, getMonth, getFullYear, LocalTime, Bool.and_eq_true,
    beq_iff_eq] at h
  obtain ⟨⟨hd, hm⟩, hy⟩ := h
  rw [Day_eq_fields (ts + tz), Day_eq_fields (now + tz), hd, hm, hy]

theorem isThisWeek_of_isToday (tz now ts : Int) (h : isToday tz now ts = true) :
    isThisWeek tz now ts = true := by
  rw [isThisWeek_eq]
  have hD := Day_eq_of_isToday tz now ts h
  have h1 := Day_decomp (ts + tz)
  have h2 := WeekDay_range (now + tz)
  rw [hD] at h1
  simp only [MakeTime, msPerDay, msPerHour, msPerMinute, msPerSecond] at *
  constructor <;> nlinarith

theorem isThisMonth_of_isToday (tz now ts : Int) (h : isToday tz now ts = true) :
    isThisMonth tz now ts = true := by
  simp only [isToday, Bool.and_eq_true] at h
  simp only [isThisMonth, Bool.and_eq_true]
  exact ⟨h.1.2, h.2⟩

theorem daysBeforeMonth_range (l m : Int) (hl0 : 0 ≤ l) (hl1 : l ≤ 1) (hm0 : 0 ≤ m)
    (hm1 : m ≤ 11) : 0 ≤ daysBeforeMonth l m ∧ daysBeforeMonth l m < 365 + l := by
  interval_cases m <;> simp [daysBeforeMonth] <;> omega

theorem monthOfYearDay_daysBeforeMonth (l m : Int) (hl0 : 0 ≤ l) (hl1 : l ≤ 1) (hm0 : 0 ≤ m)
    (hm1 : m ≤ 11) :
    monthOfYearDay (daysBeforeMonth l m) l = m ∧
      dateOfYearDay (daysBeforeMonth l m) l m = 1 := by
  interval_cases l <;> interval_cases m <;> decide

/-- The year of a day number that lies in year `y` is `y`. -/
theorem YearFromTime_eq (t y : Int) (h0 : DayFromYear y ≤ Day t)
    (h1 : Day t < DayFromYear (y + 1)) : YearFromTime t = y := by
  have hs := YearFromTime_spec t
  by_contra hne
  rcases lt_or_gt_of_ne hne with h | h
  · have := DayFromYear_mono (YearFromTime t + 1) y (by omega)
    omega
  · have := DayFromYear_mono (y + 1) (YearFromTime t) (by omega)
    omega

/-- The day that `MakeDay` finds for the first of a month is of that year and month,
and its date is 1. -/
theorem MakeDay_spec (y m : Int) (hm0 : 0 ≤ m) (hm1 : m ≤ 11) :
    YearFromTime (MakeDay y m 1 * msPerDay) = y ∧
    MonthFromTime (MakeDay y m 1 * msPerDay) = m ∧
    DateFromTime (MakeDay y m 1 * msPerDay) = 1 := by
  have h1 : m / 12 = 0 := by omega
  have h2 : m % 12 = m := by omega
  have hl : (0 : Int) ≤ (if DaysInYear y = 366 then 1 else 0) ∧
      (if DaysInYear y = 366 then (1 : Int) else 0) ≤ 1 := by
    split_ifs <;> simp
  have hb := daysBeforeMonth_range _ m hl.1 hl.2 hm0 hm1
  have hD : Day (MakeDay y m 1 * msPerDay)
      = DayFromYear y + daysBeforeMonth (if DaysInYear y = 366 then 1 else 0) m := by
    have := (Day_mul_add (MakeDay y m 1) 0 (le_refl 0) (by decide)).1
    rw [add_zero] at this
    rw [this]
    simp only [MakeDay, h1, h2, add_zero]
    omega
  have hy : YearFromTime (MakeDay y m 1 * msPerDay) = y := by
    apply YearFromTime_eq
    · omega
    · rw [DayFromYear_succ, hD]
      rcases DaysInYear_cases y with hc | hc <;> simp only [hc] at hb ⊢ <;> simp at hb ⊢ <;> omega
  have hw : DayWithinYear (MakeDay y m 1 * msPerDay)
      = daysBeforeMonth (if DaysInYear y = 366 then 1 else 0) m := by
    simp only [DayWithinYear, hy, hD]; omega
  have hmd := monthOfYearDay_daysBeforeMonth _ m hl.1 hl.2 hm0 hm1
  refine ⟨hy, ?_, ?_⟩
  · simp only [MonthFromTime, hw, InLeapYear, hy]
    exact hmd.1
  · simp only [DateFromTime, MonthFromTime, hw, InLeapYear, hy, hmd.1]
    exact hmd.2

/-! ## Facts about strings and date strings -/

theorem trim_eq_nil_of_whiteSpace (s : JSString) (h : ∀ c ∈ s, isWhiteSpace c = true) :
    trim s = [] := by
  have h1 : trimStart s = [] := by
    simpa [trimStart, List.dropWhile_eq_nil_iff] using h
  simp [trim, h1, trimEnd]

theorem digitChar_spec : ∀ d : Fin 10,
    (Nat.digitChar d.val).toNat - '0'.toNat = d.val ∧ (Nat.digitChar d.val).isDigit = true := by
  decide

theorem digitsValue_append (xs ys : JSString) :
    digitsValue (xs ++ ys) = digitsValue xs * 10 ^ ys.length + digitsValue ys := by
  induction ys using List.reverseRecOn with
  | nil => simp [digitsValue]
  | append_singleton ys c ih =>
    rw [← List.append_assoc]
    simp only [digitsValue, List.foldl_append, List.foldl_cons, List.foldl_nil,
      List.length_append, List.length_singleton] at ih ⊢
    rw [ih, pow_succ]
    ring

theorem toDigitsCore_acc (fuel n : Nat) (ds : List Char) :
    Nat.toDigitsCore 10 fuel n ds = Nat.toDigitsCore 10 fuel n [] ++ ds := by
  induction fuel generalizing n ds with
  | zero => simp [Nat.toDigitsCore]
  | succ fuel ih =>
    simp only [Nat.toDigitsCore]
    split_ifs
    · simp
    · rw [ih, ih (n / 10) [_]]
      simp

theorem toDigitsCore_spec (fuel n : Nat) (h : n < fuel) :
    digitsValue (Nat.toDigitsCore 10 fuel n []) = n ∧
      (∀ c ∈ Nat.toDigitsCore 10 fuel n [], c.isDigit = true) ∧
      Nat.toDigitsCore 10 fuel n [] ≠ [] := by
  induction fuel generalizing n with
  | zero => omega
  | succ fuel ih =>
    have hd := digitChar_spec ⟨n % 10, Nat.mod_lt _ (by decide)⟩
    simp only at hd
    simp only [Nat.toDigitsCore]
    split_ifs with h0
    · refine ⟨?_, ?_, by simp⟩
      · simp only [digitsValue, List.foldl_cons, List.foldl_nil]
        omega
      · simp [hd.2]
    · rw [toDigitsCore_acc]
      have hlt : n / 10 < fuel := by omega
      obtain ⟨h1, h2, _⟩ := ih (n / 10) hlt
      refine ⟨?_, ?_, by simp⟩
      · rw [digitsValue_append, h1]
        simp only [digitsValue, List.foldl_cons, List.foldl_nil, List.length_singleton]
        omega
      · intro c hc
        rcases List.mem_append.mp hc with hc | hc
        · exact h2 c hc
        · simp only [List.mem_singleton] at hc
          rw [hc]; exact hd.2

theorem digitsValue_replicate_zero (k : Nat) (ds : JSString) :
    digitsValue (List.replicate k '0' ++ ds) = digitsValue ds := by
  induction k with
  | zero => simp
  | succ k ih =>
    simp only [List.replicate_succ, List.cons_append, digitsValue, List.foldl_cons] at ih ⊢
    simpa using ih

/-- A zero-padded decimal string consists of digits and denotes its number. -/
theorem toZeroPaddedDecimalString_spec (n k : Nat) :
    digitsValue (toZeroPaddedDecimalString n k) = n ∧
      (∀ c ∈ toZeroPaddedDecimalString n k, c.isDigit = true) ∧
      toZeroPaddedDecimalString n k ≠ [] := by
  obtain ⟨h1, h2, h3⟩ := toDigitsCore_spec (n + 1) n (Nat.lt_succ_self n)
  simp only [toZeroPaddedDecimalString, decimalString, Nat.toDigits]
  refine ⟨by rw [digitsValue_replicate_zero, h1], ?_, by simp [h3]⟩
  intro c hc
  rcases List.mem_append.mp hc with hc | hc
  · rw [(List.mem_replicate.mp hc).2]; rfl
  · exact h2 c hc

theorem toZeroPaddedDecimalString_inj (n m k : Nat)
    (h : toZeroPaddedDecimalString n k = toZeroPaddedDecimalString m k) : n = m := by
  have h1 := (toZeroPaddedDecimalString_spec n k).1
  rw [h, (toZeroPaddedDecimalString_spec m k).1] at h1
  exact h1.symm

theorem length_pad_two : ∀ n : Fin 32, (toZeroPaddedDecimalString n.val 2).length = 2 := by
  decide

theorem length_weekdayName (w : Int) : (weekdayName w).length = 3 := by
  simp only [weekdayName]
  split_ifs <;> rfl

theorem length_monthName (m : Int) (h0 : 0 ≤ m) (h1 : m ≤ 11) : (monthName m).length = 3 := by
  interval_cases m <;> rfl

theorem monthName_inj (m n : Int) (hm0 : 0 ≤ m) (hm1 : m ≤ 11) (hn0 : 0 ≤ n) (hn1 : n ≤ 11)
    (h : monthName m = monthName n) : m = n := by
  interval_cases m <;> interval_cases n <;> first | rfl | exact absurd h (by decide)

/-- The date string depends on the day number of the local time only. -/
theorem toDateString_congr (tz a b : Int) (h : Day (a + tz) = Day (b + tz)) :
    toDateString tz a = toDateString tz b := by
  have hy : YearFromTime (a + tz) = YearFromTime (b + tz) := by simp only [YearFromTime, h]
  have hw : DayWithinYear (a + tz) = DayWithinYear (b + tz) := by simp only [DayWithinYear, h, hy]
  have hl : InLeapYear (a + tz) = InLeapYear (b + tz) := by simp only [InLeapYear, hy]
  have hm : MonthFromTime (a + tz) = MonthFromTime (b + tz) := by
    simp only [MonthFromTime, hw, hl]
  have hd : DateFromTime (a + tz) = DateFromTime (b + tz) := by
    simp only [DateFromTime, hw, hl, hm]
  simp only [toDateString, LocalTime, WeekDay, h, hy, hm, hd]

/-- Two time values with the same date string fall on the same local day. -/
theorem toDateString_inj (tz a b : Int) (h : toDateString tz a = toDateString tz b) :
    Day (a + tz) = Day (b + tz) := by
  simp only [toDateString, LocalTime, List.append_assoc, List.cons_append] at h
  have ra := DateFromTime_range (a + tz)
  have rb := DateFromTime_range (b + tz)
  have ma := MonthFromTime_range (a + tz)
  have mb := MonthFromTime_range (b + tz)
  obtain ⟨-, h⟩ := List.append_inj h (by rw [length_weekdayName, length_weekdayName])
  obtain ⟨hM, h⟩ := List.append_inj (List.cons.inj h).2
    (by rw [length_monthName _ ma.1 ma.2, length_monthName _ mb.1 mb.2])
  have la := length_pad_two ⟨(DateFromTime (a + tz)).toNat, by omega⟩
  have lb := length_pad_two ⟨(DateFromTime (b + tz)).toNat, by omega⟩
  obtain ⟨hD, h⟩ := List.append_inj (List.cons.inj h).2 (by rw [la, lb])
  have hY := (List.cons.inj h).2
  have hm : MonthFromTime (a + tz) = MonthFromTime (b + tz) :=
    monthName_inj _ _ ma.1 ma.2 mb.1 mb.2 hM
  have hd : DateFromTime (a + tz) = DateFromTime (b + tz) := by
    have := toZeroPaddedDecimalString_inj _ _ _ hD
    omega
  have hy : YearFromTime (a + tz) = YearFromTime (b + tz) := by
    have sa := toZeroPaddedDecimalString_spec (YearFromTime (a + tz)).natAbs 4
    have sb := toZeroPaddedDecimalString_spec (YearFromTime (b + tz)).natAbs 4
    by_cases pa : YearFromTime (a + tz) ≥ 0 <;> by_cases pb : YearFromTime (b + tz) ≥ 0
    · simp only [pa, pb, if_true, List.nil_append] at hY
      have := toZeroPaddedDecimalString_inj _ _ _ hY
      omega
    · exfalso
      simp only [pa, pb, if_true, if_false, List.nil_append, List.singleton_append] at hY
      have hc := sa.2.1 '-' (by rw [hY]; exact List.mem_cons_self _ _)
      exact absurd hc (by decide)
    · exfalso
      simp only [pa, pb, if_true, if_false, List.nil_append, List.singleton_append] at hY
      have hc := sb.2.1 '-' (by rw [← hY]; exact List.mem_cons_self _ _)
      exact absurd hc (by decide)
    · simp only [pa, pb, if_false, List.singleton_append] at hY
      have := toZeroPaddedDecimalString_inj _ _ _ (List.cons.inj hY).2
      omega
  rw [Day_eq_fields (a + tz), Day_eq_fields (b + tz), hy, hm, hd]

/-- Between two time values with the same date string, every time value has that
date string. -/
theorem toDateString_between (tz a x y : Int) (hax : x ≤ a) (hxy : y ≤ x)
    (h : toDateString tz y = toDateString tz a) : toDateString tz x = toDateString tz a := by
  have hd := toDateString_inj tz y a h
  have h1 := Day_mono (x + tz) (a + tz) (by omega)
  have h2 := Day_mono (y + tz) (x + tz) (by omega)
  exact toDateString_congr tz x a (by omega)

/-! ## Facts about `parseFloat` -/

/-- A string of digits reads as the number it denotes. -/
theorem parseUnsigned_digits (ds : JSString) (hne : ds ≠ [])
    (hd : ∀ c ∈ ds, c.isDigit = true) :
    parseUnsigned ds = JSNumber.fin (digitsValue ds) := by
  have h1 : ds.takeWhile Char.isDigit = ds := List.takeWhile_eq_self_iff.mpr hd
  have h2 : ds.dropWhile Char.isDigit = [] := List.dropWhile_eq_nil_iff.mpr hd
  have h3 : "Infinity".toList.isPrefixOf ds = false := by
    cases ds with
    | nil => exact absurd rfl hne
    | cons c ds =>
      have hc := hd c (List.mem_cons_self _ _)
      have hI : ('I' == c) = false := by
        rw [beq_eq_false_iff_ne]
        intro h
        rw [← h] at hc
        exact absurd hc (by decide)
      show ('I' :: "nfinity".toList).isPrefixOf (c :: ds) = false
      simp [List.isPrefixOf, hI]
  simp only [parseUnsigned, h1, h2, h3, hne, if_false, Bool.false_eq_true]

/-- A minus sign followed by the decimal digits of `n` reads as `-n`. -/
theorem parseFloat_neg_decimalString (n : Nat) :
    parseFloat ('-' :: decimalString n) = JSNumber.fin (-(n : ℚ)) := by
  obtain ⟨h1, h2, h3⟩ := toDigitsCore_spec (n + 1) n (Nat.lt_succ_self n)
  have ht : trimStart ('-' :: decimalString n) = '-' :: decimalString n := by
    have hw : isWhiteSpace '-' = false := by decide
    simp [trimStart, List.dropWhile, hw]
  have hp := parseUnsigned_digits (decimalString n) h3 h2
  simp only [parseFloat, ht, if_true, hp, JSNumber.neg]
  simp only [decimalString, Nat.toDigits, h1]

/-! ## Facts about the sort -/

theorem filter_orderedInsert_pos {α : Type} (r : α → α → Prop) [DecidableRel r]
    (p : α → Bool)
    (a : α) (hp : p a = true) (hr : ∀ b, p b = true → r a b) (l : List α) :
    (l.orderedInsert r a).filter p = a :: l.filter p := by
  induction l with
  | nil => simp [hp]
  | cons b l ih =>
    by_cases hab : r a b
    · simp [List.orderedInsert, hab, hp]
    · have hb : p b = false := by
        cases hpb : p b
        · rfl
        · exact absurd (hr b hpb) hab
      simp [List.orderedInsert, hab, hb, ih]

theorem filter_orderedInsert_neg {α : Type} (r : α → α → Prop) [DecidableRel r]
    (p : α → Bool)
    (a : α) (hp : p a = false) (l : List α) :
    (l.orderedInsert r a).filter p = l.filter p := by
  induction l with
  | nil => simp [hp]
  | cons b l ih =>
    by_cases hab : r a b
    · simp [List.orderedInsert, hab, hp]
    · cases hpb : p b <;> simp [List.orderedInsert, hab, hpb, ih]

/-- The sort keeps, in their original order, the elements on which a key has a given
value, when elements with equal keys compare equal. -/
theorem sort_filter_key {α κ : Type} [DecidableEq κ] (compareFn : α → α → ℚ)
    (key : α → κ)
    (h : ∀ a b, key a = key b → compareFn a b = 0) (k : κ) (l : List α) :
    (sort compareFn l).filter (fun a => decide (key a = k))
      = l.filter (fun a => decide (key a = k)) := by
  induction l with
  | nil => rfl
  | cons a l ih =>
    simp only [sort, List.insertionSort] at ih ⊢
    by_cases hk : key a = k
    · rw [filter_orderedInsert_pos _ _ a (by simp [hk]), ih]
      · simp [hk]
      · intro b hb
        have hb : key b = k := by simpa using hb
        simp [h a b (hk.trans hb.symm)]
    · rw [filter_orderedInsert_neg _ _ a (by simp [hk]), ih]
      simp [hk]

theorem sort_perm {α : Type} (compareFn : α → α → ℚ) (l : List α) :
    (sort compareFn l).Perm l :=
  List.perm_insertionSort _ l

theorem sortExpenses_latest_sorted (filtered : List (Expense ℚ)) :
    (sortExpenses "latest".toList filtered).Pairwise (fun a b => b.date ≤ a.date) := by
  have hm : sortExpenses "latest".toList filtered
      = sort (fun a b => ((b.date - a.date : Int) : ℚ)) filtered := by
    simp [sortExpenses]
  rw [hm, sort]
  haveI : IsTotal (Expense ℚ) (fun a b => ((b.date - a.date : Int) : ℚ) ≤ 0) :=
    ⟨fun a b => by
      simp only [Int.cast_sub, sub_nonpos, Int.cast_le]
      exact le_total _ _⟩
  haveI : IsTrans (Expense ℚ) (fun a b => ((b.date - a.date : Int) : ℚ) ≤ 0) :=
    ⟨fun a b c => by
      simp only [Int.cast_sub, sub_nonpos, Int.cast_le]
      exact fun h1 h2 => le_trans h2 h1⟩
  have hs := List.sorted_insertionSort
    (fun a b : Expense ℚ => ((b.date - a.date : Int) : ℚ) ≤ 0) filtered
  refine List.Pairwise.imp ?_ hs
  intro a b hab
  simpa using hab

/-! ## Facts about the totals -/

theorem addToTotals_comm (tz now : Int) (acc : Totals) (a b : Expense ℚ) :
    addToTotals tz now (addToTotals tz now acc a) b
      = addToTotals tz now (addToTotals tz now acc b) a := by
  simp only [addToTotals]
  congr 1 <;> split_ifs <;> ring

/-- The running sums do not depend on the order of the records. -/
theorem foldl_addToTotals_perm (tz now : Int) (l₁ l₂ : List (Expense ℚ)) (h : l₁.Perm l₂)
    (init : Totals) :
    l₁.foldl (addToTotals tz now) init = l₂.foldl (addToTotals tz now) init :=
  h.foldl_eq' (fun x _ y _ z => addToTotals_comm tz now z x y) init

/-! ## Facts about the grouping -/

theorem mem_firstAppearances {α : Type} [DecidableEq α] (a : α) (l : List α) :
    a ∈ firstAppearances l ↔ a ∈ l := by
  induction l with
  | nil => simp [firstAppearances]
  | cons b l ih =>
    by_cases hab : a = b
    · simp [firstAppearances, hab]
    · simp [firstAppearances, hab, ih]

theorem nodup_firstAppearances {α : Type} [DecidableEq α] (l : List α) :
    (firstAppearances l).Nodup := by
  induction l with
  | nil => simp [firstAppearances]
  | cons b l ih =>
    simp only [firstAppearances, List.nodup_cons]
    exact ⟨by simp [List.mem_filter], ih.filter _⟩

theorem firstAppearances_append_singleton {α : Type} [DecidableEq α] (l : List α) (a : α) :
    firstAppearances (l ++ [a])
      = if a ∈ l then firstAppearances l else firstAppearances l ++ [a] := by
  induction l with
  | nil => simp [firstAppearances]
  | cons b l ih =>
    rw [List.cons_append]
    simp only [firstAppearances]
    rw [ih]
    by_cases hab : a = b
    · subst hab
      by_cases hal : a ∈ l <;> simp [hal, List.filter_append]
    · have hba : ¬ b = a := fun h => hab h.symm
      by_cases hal : a ∈ l <;> simp [hal, hab, hba, List.filter_append]

theorem groupByDate_append_singleton (tz : Int) (l : List (Expense ℚ)) (e : Expense ℚ) :
    groupByDate tz (l ++ [e]) = pushTo (groupByDate tz l) (toDateString tz e.date) e := by
  simp [groupByDate, List.foldl_append]

theorem pushTo_map (f : JSString → List (Expense ℚ)) (d : JSString) (e : Expense ℚ)
    (ks : List JSString) (hks : ks.Nodup) :
    pushTo (ks.map (fun k => (k, f k))) d e
      = if d ∈ ks then ks.map (fun k => (k, if k = d then f k ++ [e] else f k))
        else ks.map (fun k => (k, f k)) ++ [(d, [e])] := by
  induction ks with
  | nil => simp [pushTo]
  | cons k ks ih =>
    have hk := List.nodup_cons.mp hks
    by_cases hkd : k = d
    · subst hkd
      have hne : ∀ x ∈ ks, ¬ x = k := fun x hx hxk => hk.1 (hxk ▸ hx)
      simp only [List.map_cons, pushTo, if_true, List.mem_cons, true_or]
      congr 1
      apply List.map_congr_left
      intro x hx
      simp [hne x hx]
    · have hdk : ¬ d = k := fun h => hkd h.symm
      simp only [List.map_cons, pushTo, if_neg hkd, ih hk.2, List.mem_cons, hdk, false_or]
      split_ifs <;> simp

/-- The grouping in closed form: one entry for each day string, in order of first
appearance, holding the records of that day in their order in the input. -/
theorem groupByDate_eq (tz : Int) (data : List (Expense ℚ)) :
    groupByDate tz data
      = (firstAppearances (data.map (fun e => toDateString tz e.date))).map
          (fun k => (k, data.filter (fun e => decide (toDateString tz e.date = k)))) := by
  induction data using List.reverseRecOn with
  | nil => rfl
  | append_singleton l e ih =>
    rw [groupByDate_append_singleton, ih, pushTo_map _ _ _ _ (nodup_firstAppearances _),
      List.map_append, List.map_singleton, firstAppearances_append_singleton]
    simp only [mem_firstAppearances]
    by_cases hmem : toDateString tz e.date ∈ l.map (fun e => toDateString tz e.date)
    · simp only [if_pos hmem]
      apply List.map_congr_left
      intro k _
      by_cases hk : k = toDateString tz e.date
      · simp [hk, List.filter_append]
      · have hk2 : ¬ toDateString tz e.date = k := fun h => hk h.symm
        simp [hk, hk2, List.filter_append]
    · simp only [if_neg hmem, List.map_append, List.map_singleton]
      congr 1
      · apply List.map_congr_left
        intro k hk
        have hk1 : k ∈ l.map (fun e => toDateString tz e.date) := (mem_firstAppearances _ _).mp hk
        have hk2 : ¬ toDateString tz e.date = k := fun h => hmem (h ▸ hk1)
        simp [List.filter_append, hk2]
      · have hnil :
            l.filter (fun x => decide (toDateString tz x.date = toDateString tz e.date))
              = [] := by
          rw [List.filter_eq_nil_iff]
          intro x hx
          simp only [decide_eq_true_eq]
          intro hxe
          exact hmem (List.mem_map.mpr ⟨x, hx, hxe⟩)
        simp [List.filter_append, hnil]

theorem flatten_pushTo (g : List (JSString × List (Expense ℚ))) (d : JSString)
    (e : Expense ℚ) :
    (flatten (pushTo g d e)).Perm (flatten g ++ [e]) := by
  induction g with
  | nil => simp [pushTo, flatten]
  | cons p g ih =>
    obtain ⟨k, v⟩ := p
    by_cases hkd : k = d
    · simp only [pushTo, if_pos hkd, flatten, List.map_cons, List.flatten_cons, List.append_assoc]
      exact List.Perm.append_left v (List.perm_append_comm)
    · simp only [pushTo, if_neg hkd, flatten, List.map_cons, List.flatten_cons, List.append_assoc]
      exact List.Perm.append_left v ih

theorem flatten_groupByDate_perm (tz : Int) (data : List (Expense ℚ)) :
    (flatten (groupByDate tz data)).Perm data := by
  induction data using List.reverseRecOn with
  | nil => simp [groupByDate, flatten]
  | append_singleton l e ih =>
    rw [groupByDate_append_singleton]
    exact (flatten_pushTo _ _ _).trans (List.Perm.append_right [e] ih)

theorem flatten_groupByDate_eq (tz : Int) (data : List (Expense ℚ)) :
    flatten (groupByDate tz data)
      = ((firstAppearances (data.map (fun e => toDateString tz e.date))).map
          (fun k => data.filter (fun e => decide (toDateString tz e.date = k)))).flatten := by
  rw [groupByDate_eq, flatten, List.map_map]
  rfl

/-- Grouping a list that is ordered by date, latest first, and reading the groups one
after the other gives the list back. -/
theorem flatten_groupByDate_of_sorted (tz : Int) (data : List (Expense ℚ))
    (h : data.Pairwise (fun a b => b.date ≤ a.date)) :
    flatten (groupByDate tz data) = data := by
  rw [flatten_groupByDate_eq]
  induction data with
  | nil => rfl
  | cons e rest ih =>
    have hp := List.pairwise_cons.mp h
    have ih := ih hp.2
    have hT : ∀ ks : List JSString, (∀ k ∈ ks, k ≠ toDateString tz e.date) →
        ks.map (fun k => (e :: rest).filter (fun x => decide (toDateString tz x.date = k)))
          = ks.map (fun k => rest.filter (fun x => decide (toDateString tz x.date = k))) := by
      intro ks hks
      apply List.map_congr_left
      intro k hk
      have : ¬ toDateString tz e.date = k := fun hh => hks k hk hh.symm
      simp [List.filter_cons, this]
    simp only [List.map_cons, firstAppearances, List.flatten_cons]
    rw [hT _ (by intro k hk; simpa using (List.mem_filter.mp hk).2)]
    simp only [List.filter_cons, decide_True, if_true, List.cons_append]
    congr 1
    by_cases hmem : toDateString tz e.date ∈ rest.map (fun x => toDateString tz x.date)
    · cases rest with
      | nil => simp at hmem
      | cons x rest =>
        obtain ⟨y, hy, hye⟩ := List.mem_map.mp hmem
        have hxe : toDateString tz x.date = toDateString tz e.date := by
          refine toDateString_between tz e.date x.date y.date (hp.1 x (List.mem_cons_self _ _))
            ?_ hye
          rcases List.mem_cons.mp hy with hyx | hyr
          · rw [hyx]
          · exact (List.pairwise_cons.mp hp.2).1 y hyr
        simp only [List.map_cons, firstAppearances, List.flatten_cons] at ih ⊢
        simp only [← hxe]
        simp only [List.filter_cons, decide_not, decide_True, Bool.not_true, Bool.false_eq_true,
          if_false, List.filter_filter, Bool.and_self]
        simp only [List.filter_cons, decide_not] at ih
        exact ih
    · have h1 : rest.filter (fun x => decide (toDateString tz x.date = toDateString tz e.date))
          = [] := by
        rw [List.filter_eq_nil_iff]
        intro x hx
        simp only [decide_eq_true_eq]
        exact fun hxe => hmem (List.mem_map.mpr ⟨x, hx, hxe⟩)
      have h2 : (firstAppearances (rest.map (fun x => toDateString tz x.date))).filter
          (fun b => decide (b ≠ toDateString tz e.date))
          = firstAppearances (rest.map (fun x => toDateString tz x.date)) := by
        rw [List.filter_eq_self]
        intro k hk
        have hk1 := (mem_firstAppearances _ _).mp hk
        simp only [ne_eq, decide_not, Bool.not_eq_true', decide_eq_false_iff_not]
        exact fun hke => hmem (hke ▸ hk1)
      rw [h1, h2, List.nil_append]
      exact ih

/-! ## The time-window classifier -/

/-- Claim C3: let `weekStart` be the local midnight that starts the latest day of weekday
index 0 on or before `now`. Then `isThisWeek` holds of `ts` exactly when `ts` lies
between `weekStart` and 23:59:59.999 local time six days later, both included; and a
`ts` in that week whose month or year differs from that of `now` is in this week and
not in this month. -/
theorem isThisWeek_iff (tz now ts weekStart : Int)
    (hmid : TimeWithinDay (LocalTime tz weekStart) = 0)
    (hsun : WeekDay (LocalTime tz weekStart) = 0)
    (hle : weekStart ≤ now) (hlatest : now < weekStart + 7 * msPerDay) :
    (isThisWeek tz now ts = true ↔
      weekStart ≤ ts ∧ ts ≤ weekStart + 6 * msPerDay + MakeTime 23 59 59 999) ∧
    (weekStart ≤ ts → ts ≤ weekStart + 6 * msPerDay + MakeTime 23 59 59 999 →
      (getMonth tz ts ≠ getMonth tz now ∨ getFullYear tz ts ≠ getFullYear tz now) →
      isThisWeek tz now ts = true ∧ isThisMonth tz now ts = false) := by
  have hw := weekStart_unique tz now weekStart hmid hsun hle hlatest
  have hiff := isThisWeek_eq tz now ts
  rw [← hw] at hiff
  refine ⟨hiff, fun h1 h2 hne => ⟨hiff.mpr ⟨h1, h2⟩, ?_⟩⟩
  simp only [isThisMonth, Bool.and_eq_false_iff, beq_eq_false_iff_ne]
  exact hne

/-- Thursday 1 February 2024 in a zone one hour ahead of UTC: the week starts on Sunday
28 January, and Tuesday 30 January is in this week and not in this month. -/
theorem isThisWeek_iff_witness :
    isThisWeek 3600000 1706788800000 1706616000000 = true ∧
      isThisMonth 3600000 1706788800000 1706616000000 = false :=
  (isThisWeek_iff 3600000 1706788800000 1706616000000 1706396400000
    (by decide) (by decide) (by decide) (by decide)).2 (by decide) (by decide)
    (Or.inl (by decide))

/-- Claim C4: a time value of today is also of this week and of this month, so a record
dated today adds its amount to each of the three totals of `loadExpenses`, wherever it
stands in the list. -/
theorem isToday_counts (tz now ts : Int) (h : isToday tz now ts = true) :
    isThisWeek tz now ts = true ∧ isThisMonth tz now ts = true ∧
    ∀ (e : Expense ℚ) (before after : List (Expense ℚ)), e.date = ts →
      loadExpenses tz now (some (before ++ e :: after))
        = { today := (loadExpenses tz now (some (before ++ after))).today + e.amount,
            week := (loadExpenses tz now (some (before ++ after))).week + e.amount,
            month := (loadExpenses tz now (some (before ++ after))).month + e.amount } := by
  have hw := isThisWeek_of_isToday tz now ts h
  have hm := isThisMonth_of_isToday tz now ts h
  refine ⟨hw, hm, ?_⟩
  intro e before after he
  subst he
  have hp : (before ++ e :: after).Perm ((before ++ after) ++ [e]) :=
    List.perm_middle.trans (List.perm_append_singleton e (before ++ after)).symm
  simp only [loadExpenses, Option.getD_some]
  rw [foldl_addToTotals_perm tz now _ _ hp, List.foldl_append]
  simp [addToTotals, h, hw, hm]

/-- An instant one hour after `now` on the same day. -/
theorem isToday_counts_witness :
    isThisWeek 0 1706788800000 1706792400000 = true ∧
      isThisMonth 0 1706788800000 1706792400000 = true :=
  ⟨(isToday_counts 0 1706788800000 1706792400000 (by decide)).1,
    (isToday_counts 0 1706788800000 1706792400000 (by decide)).2.1⟩

/-! ## The totals -/

/-- Claim C6: at every reference instant, two lists of expense records that are
permutations of each other give the same three totals (amounts are exact rationals). -/
theorem loadExpenses_perm (tz now : Int) (l₁ l₂ : List (Expense ℚ)) (h : l₁.Perm l₂) :
    loadExpenses tz now (some l₁) = loadExpenses tz now (some l₂) := by
  simp only [loadExpenses, Option.getD_some]
  exact h.foldl_eq' (fun x _ y _ z => addToTotals_comm tz now z x y) _

/-- Two records in either order give the same totals. -/
theorem loadExpenses_perm_witness :
    loadExpenses 0 1706788800000 (some [dinner, taxi])
      = loadExpenses 0 1706788800000 (some [taxi, dinner]) :=
  loadExpenses_perm 0 1706788800000 [dinner, taxi] [taxi, dinner] (List.Perm.swap _ _ _)

/-! ## The filter and sort steps -/

/-- Claim C2, at the input where the code departs from it: the search `lunch` followed
by a blank is not empty after trimming, the note `lunch` contains the trimmed search,
and yet the search step drops the record, because it looks for the untrimmed string. -/
theorem search_untrimmed :
    trim "lunch ".toList = "lunch".toList ∧
    includes (toLowerCase lunch.note) (toLowerCase (trim "lunch ".toList)) = true ∧
    filterBySearch "lunch ".toList [lunch] = [] := by
  decide

/-- Claim C8: the category and search steps of the Home pipeline are idempotent: applied
to their own output, with the same filter and search, they return that output. -/
theorem filter_idempotent (expenses : List (Expense ℚ)) (filterCategory search : JSString) :
    filterBySearch search (filterByCategory filterCategory
        (filterBySearch search (filterByCategory filterCategory expenses)))
      = filterBySearch search (filterByCategory filterCategory expenses) := by
  simp only [filterBySearch, filterByCategory]
  split_ifs
  · simp only [List.filter_filter]
    congr 1
    funext a
    generalize includes _ _ = x
    generalize decide (a.category = filterCategory) = y
    cases x <;> cases y <;> rfl
  · simp [List.filter_filter]
  · simp [List.filter_filter]
  · rfl

/-- Claim C9: a search string that consists of white space only (the empty string
included) filters nothing: the search step keeps every record, whatever its note, and
the filtered list and the grouped view are those of the empty search. -/
theorem blank_search (expenses : List (Expense ℚ)) (filterCategory search sortMode : JSString)
    (tz : Int) (h : ∀ c ∈ search, isWhiteSpace c = true) :
    filterBySearch search expenses = expenses ∧
    filteredExpenses expenses filterCategory search sortMode
      = filteredExpenses expenses filterCategory [] sortMode ∧
    groupedExpenses tz expenses filterCategory search sortMode
      = groupedExpenses tz expenses filterCategory [] sortMode := by
  have hs : ∀ l, filterBySearch search l = l := by
    intro l; simp [filterBySearch, trim_eq_nil_of_whiteSpace search h]
  have h0 : ∀ l, filterBySearch [] l = l := by
    intro l; simp [filterBySearch, trim, trimStart, trimEnd]
  simp [groupedExpenses, filteredExpenses, hs, h0]

/-- A search of two blanks keeps the record. -/
theorem blank_search_witness :
    filterBySearch [' ', ' '] [lunch] = [lunch] :=
  (blank_search [lunch] [] [' ', ' '] "latest".toList 0 (by decide)).1

/-- Claim C5: the sort step is stable. In `highest` mode the records with any given
amount, and in `latest` mode the records with any given date, occur in the sorted
output in the same order as in the input list. -/
theorem sortExpenses_stable (filtered : List (Expense ℚ)) :
    (∀ amount : ℚ,
      (sortExpenses "highest".toList filtered).filter (fun e => decide (e.amount = amount))
        = filtered.filter (fun e => decide (e.amount = amount))) ∧
    (∀ date : Int,
      (sortExpenses "latest".toList filtered).filter (fun e => decide (e.date = date))
        = filtered.filter (fun e => decide (e.date = date))) := by
  constructor
  · intro amount
    have hm : sortExpenses "highest".toList filtered
        = sort (fun a b => b.amount - a.amount) filtered := by
      simp [sortExpenses]
    rw [hm]
    exact sort_filter_key _ (fun e => e.amount) (fun a b hab => sub_eq_zero.mpr hab.symm) amount
      filtered
  · intro date
    have hm : sortExpenses "latest".toList filtered
        = sort (fun a b => ((b.date - a.date : Int) : ℚ)) filtered := by
      simp [sortExpenses]
    rw [hm]
    refine sort_filter_key (fun a b => ((b.date - a.date : Int) : ℚ)) (fun e => e.date)
      (fun a b hab => ?_) date filtered
    have hd : a.date = b.date := hab
    simp [hd]

/-! ## The grouped view -/

/-- Claim C10: for every list of records, `groupByDate` has one group for each date
string, no group is empty, the group of a date string holds exactly the records of that
date string in their order in the input, every record is in the group of its own date
string, the groups together are a permutation of the input, and the keys stand in the
order in which they first appear in the input. -/
theorem groupByDate_partition (tz : Int) (data : List (Expense ℚ)) :
    ((groupByDate tz data).map Prod.fst).Nodup ∧
    (∀ p ∈ groupByDate tz data,
      p.2 ≠ [] ∧ p.2 = data.filter (fun e => decide (toDateString tz e.date = p.1))) ∧
    (∀ e ∈ data, ∃ p ∈ groupByDate tz data, p.1 = toDateString tz e.date ∧ e ∈ p.2) ∧
    (flatten (groupByDate tz data)).Perm data ∧
    (groupByDate tz data).map Prod.fst
      = firstAppearances (data.map (fun e => toDateString tz e.date)) := by
  have hkeys : (groupByDate tz data).map Prod.fst
      = firstAppearances (data.map (fun e => toDateString tz e.date)) := by
    rw [groupByDate_eq, List.map_map]
    exact (List.map_congr_left (fun k _ => rfl)).trans (List.map_id _)
  refine ⟨hkeys ▸ nodup_firstAppearances _, ?_, ?_, flatten_groupByDate_perm tz data, hkeys⟩
  · intro p hp
    rw [groupByDate_eq] at hp
    obtain ⟨k, hk, rfl⟩ := List.mem_map.mp hp
    refine ⟨?_, rfl⟩
    obtain ⟨e, he, hek⟩ := List.mem_map.mp ((mem_firstAppearances _ _).mp hk)
    exact List.ne_nil_of_mem (List.mem_filter.mpr ⟨he, by simpa using hek⟩)
  · intro e he
    refine ⟨(toDateString tz e.date,
      data.filter (fun x => decide (toDateString tz x.date = toDateString tz e.date))), ?_, rfl,
      List.mem_filter.mpr ⟨he, by simp⟩⟩
    rw [groupByDate_eq]
    exact List.mem_map.mpr
      ⟨_, (mem_firstAppearances _ _).mpr (List.mem_map.mpr ⟨e, he, rfl⟩), rfl⟩

/-- The round trip of claim C1 fails in `highest` mode: three records of amounts 30, 20
and 10, the first and the last of the same day, are shown as 30, 10, 20. -/
theorem flatten_groupedExpenses_highest :
    filteredExpenses [dinner, taxi, coffee] [] [] "highest".toList = [dinner, taxi, coffee] ∧
    flatten (groupedExpenses 0 [dinner, taxi, coffee] [] [] "highest".toList)
      = [dinner, coffee, taxi] ∧
    flatten (groupedExpenses 0 [dinner, taxi, coffee] [] [] "highest".toList)
      ≠ filteredExpenses [dinner, taxi, coffee] [] [] "highest".toList := by
  have h1 : filteredExpenses [dinner, taxi, coffee] [] [] "highest".toList
      = [dinner, taxi, coffee] := by
    simp [filteredExpenses, filterByCategory, filterBySearch, sortExpenses, sort, trim, trimStart,
      trimEnd, dinner, taxi, coffee]
    norm_num
  have h2 : flatten (groupByDate 0 [dinner, taxi, coffee]) = [dinner, coffee, taxi] := by
    decide
  rw [groupedExpenses, h1]
  exact ⟨rfl, h2, by rw [h2]; decide⟩

/-- Claim C1, amended: for every list of records, category filter and search string,
reading the groups of the grouped output one after the other gives, in `latest` mode,
exactly the filtered and sorted list, and in `highest` mode a permutation of it. -/
theorem flatten_groupedExpenses (tz : Int) (expenses : List (Expense ℚ))
    (filterCategory search : JSString) :
    flatten (groupedExpenses tz expenses filterCategory search "latest".toList)
      = filteredExpenses expenses filterCategory search "latest".toList ∧
    (flatten (groupedExpenses tz expenses filterCategory search "highest".toList)).Perm
      (filteredExpenses expenses filterCategory search "highest".toList) :=
  ⟨flatten_groupByDate_of_sorted tz _ (sortExpenses_latest_sorted _),
    flatten_groupByDate_perm tz _⟩

/-! ## Saving an expense -/

/-- Claim C7: when the amount is missing, reads as `NaN`, is zero or negative, or the
category is empty, `saveExpense` shows one of its two validation alerts and leaves the
stored expense list as it was. So it is for the negative of every natural number
written in decimal digits, and in particular for the amounts `-5` and `0` with category
`Food`, whatever the stored list and the note. -/
theorem saveExpense_rejects (idClock dateClock : Int) (storageOk : Bool)
    (existing : Option (List (Expense JSNumber))) (amount category note : JSString) :
    (amount = [] ∨ parseFloat amount = JSNumber.nan ∨
        (∃ q : ℚ, parseFloat amount = JSNumber.fin q ∧ q ≤ 0) ∨
        parseFloat amount = JSNumber.negInf ∨ category = [] →
      ((saveExpense idClock dateClock storageOk existing amount category note).alert
            = "Please enter amount and category".toList ∨
        (saveExpense idClock dateClock storageOk existing amount category note).alert
            = "Enter a valid amount".toList) ∧
      (saveExpense idClock dateClock storageOk existing amount category note).expenses
        = existing) ∧
    (∀ n : Nat, category ≠ [] →
      saveExpense idClock dateClock storageOk existing ('-' :: decimalString n) category note
        = { alert := "Enter a valid amount".toList, expenses := existing }) ∧
    saveExpense idClock dateClock storageOk existing "-5".toList "Food".toList note
      = { alert := "Enter a valid amount".toList, expenses := existing } ∧
    saveExpense idClock dateClock storageOk existing "0".toList "Food".toList note
      = { alert := "Enter a valid amount".toList, expenses := existing } := by
  refine ⟨?_, ?_, ?_, ?_⟩
  · intro h
    by_cases h0 : amount = [] ∨ category = []
    · simp [saveExpense, h0]
    · have hbad : ((parseFloat amount).isNaN || (parseFloat amount).leZero) = true := by
        rcases h with h | h | ⟨q, hq, hq0⟩ | h | h
        · exact absurd (Or.inl h) h0
        · simp [h, JSNumber.isNaN]
        · simp [hq, JSNumber.isNaN, JSNumber.leZero, hq0]
        · simp [h, JSNumber.isNaN, JSNumber.leZero]
        · exact absurd (Or.inr h) h0
      simp only [saveExpense, if_neg h0, hbad, if_true]
      simp
  · intro n hc
    simp [saveExpense, hc, parseFloat_neg_decimalString, JSNumber.isNaN, JSNumber.leZero]
  · simp [saveExpense, parseFloat, trimStart, parseUnsigned, JSNumber.neg, JSNumber.isNaN,
      JSNumber.leZero, digitsValue, isWhiteSpace, exponentValue]
  · simp [saveExpense, parseFloat, trimStart, parseUnsigned, JSNumber.neg, JSNumber.isNaN,
      JSNumber.leZero, digitsValue, isWhiteSpace, exponentValue]

/-- The amount `abc` reads as `NaN`: the stored list stays empty. -/
theorem saveExpense_rejects_witness :
    (saveExpense 1706788800000 1706788800000 true (some []) "abc".toList "Food".toList []).expenses
      = some [] :=
  ((saveExpense_rejects 1706788800000 1706788800000 true (some []) "abc".toList "Food".toList
    []).1 (Or.inr (Or.inl (by decide)))).2

end FinancePicker
